import Mathlib

/-!
Verification of `netlify/functions/submit.js` — a single HTTP handler that
parses a survey submission (JSON / urlencoded / multipart / fallback),
renders an HTML email body, and relays it via the Brevo SMTP API.

Modelling conventions for the shallow embedding:
* JS strings are Lean `String`s (lists of unicode scalar values).
* JS values reachable from a parsed body are modelled by `JVal`
  (null / boolean / number / string / array / object).  JS numbers are
  modelled as integers; no claim involves non-integer numerics.
* Platform primitives whose results are inputs to the handler (the multipart
  parser `req.formData()`, the body stream read `req.text()`, the outbound
  `fetch`, and the current time `new Date().toISOString()`) are oracle
  inputs carried in the `Request` / handler arguments.  `JSON.parse` and
  `URLSearchParams` are implemented, since claims depend on their behaviour
  on concrete texts.
* Exceptions are modelled with `Except JsErr`; the top-level `try/catch`
  of the handler maps an `Except.error` to the 500 response.
-/

namespace Submit

/-! ### Character-level string utilities -/

/-- `String.prototype.replace` with a `/c/g` single-character regex and a
replacement string `r` (the replacements used by the source contain no `$`
patterns, so JS replacement is plain substitution). -/
def replaceAllChar (c : Char) (r : List Char) : List Char → List Char
  | [] => []
  | x :: xs => (if x = c then r else [x]) ++ replaceAllChar c r xs

/-- Does `pat` occur as a contiguous sublist of the second argument? -/
def listHasInfix (pat : List Char) : List Char → Bool
  | [] => pat.isEmpty
  | x :: xs => pat.isPrefixOf (x :: xs) || listHasInfix pat xs

/-- Substring test, `String.prototype.includes`. -/
def jsIncludes (s pat : String) : Bool :=
  listHasInfix pat.data s.data

/-- `String.prototype.toLowerCase`, character-wise (the content types the
handler compares are ASCII). -/
def jsToLowerCase (s : String) : String := ⟨s.data.map Char.toLower⟩

/-! ### `escapeHtml` (source lines 145–151)

```js
function escapeHtml(s) {
  return String(s)
    .replace(/&/g, "&amp;")
    .replace(/</g, "&lt;")
    .replace(/>/g, "&gt;")
    .replace(/"/g, "&quot;");
}
```
The handler always passes strings, so `String(s)` is the identity here. -/

def escapeHtmlL (s : List Char) : List Char :=
  replaceAllChar '"' "&quot;".data
    (replaceAllChar '>' "&gt;".data
      (replaceAllChar '<' "&lt;".data
        (replaceAllChar '&' "&amp;".data s)))

def escapeHtml (s : String) : String :=
  ⟨escapeHtmlL s.data⟩

/-- Character-wise escaping: what the four sequential global replaces amount
to when `&` is replaced first. -/
def escChar (c : Char) : List Char :=
  if c = '&' then "&amp;".data
  else if c = '<' then "&lt;".data
  else if c = '>' then "&gt;".data
  else if c = '"' then "&quot;".data
  else [c]

def charEsc (s : List Char) : List Char := s.flatMap escChar

/-- No raw `<`, `>` or `"` anywhere in the list. -/
def noRawAngles (l : List Char) : Bool :=
  l.all fun c => !(c = '<' || c = '>' || c = '"')

/-- Every `&` begins one of the four entities produced by `escapeHtml`. -/
def ampEntitiesOk : List Char → Bool
  | [] => true
  | c :: cs =>
    (if c = '&' then
      ("amp;".data.isPrefixOf cs || "lt;".data.isPrefixOf cs ||
       "gt;".data.isPrefixOf cs || "quot;".data.isPrefixOf cs)
     else true) && ampEntitiesOk cs

/-- Newline-to-`<br/>` conversion applied to an already-escaped value
(source: `.replace(/\n/g,"<br/>")`). -/
def brify (l : List Char) : List Char := replaceAllChar '\n' "<br/>".data l

/-- Undo the `<br/>` insertion: every occurrence of `<br/>` becomes `\n`. -/
def unbrify : List Char → List Char
  | [] => []
  | c :: cs =>
    if c = '<' && "br/>".data.isPrefixOf cs then '\n' :: unbrify (cs.drop 4)
    else c :: unbrify cs
  termination_by l => l.length
  decreasing_by
  · simp only [List.length_drop, List.length_cons]
    omega
  · simp

/-- Safety of a rendered table cell: once every inserted `<br/>` is undone,
no raw `<`, `>` or `"` remains — i.e. the only angle brackets of the cell
text are those of the `<br/>` line breaks. -/
def cellSafe (l : List Char) : Bool := noRawAngles (unbrify l)

/-! ### Lemmas about escaping -/

theorem replaceAllChar_append (c : Char) (r : List Char) (l₁ l₂ : List Char) :
    replaceAllChar c r (l₁ ++ l₂) =
      replaceAllChar c r l₁ ++ replaceAllChar c r l₂ := by
  induction l₁ with
  | nil => rfl
  | cons x xs ih => simp [replaceAllChar, ih]

theorem escapeHtmlL_append (l₁ l₂ : List Char) :
    escapeHtmlL (l₁ ++ l₂) = escapeHtmlL l₁ ++ escapeHtmlL l₂ := by
  simp [escapeHtmlL, replaceAllChar_append]

theorem escapeHtmlL_single (x : Char) : escapeHtmlL [x] = escChar x := by
  by_cases h₁ : x = '&'
  · subst h₁; rfl
  · by_cases h₂ : x = '<'
    · subst h₂; rfl
    · by_cases h₃ : x = '>'
      · subst h₃; rfl
      · by_cases h₄ : x = '"'
        · subst h₄; rfl
        · simp [escapeHtmlL, replaceAllChar, escChar, h₁, h₂, h₃, h₄]

/-- The sequential replaces, with `&` first, act character-wise: entities
introduced by earlier replaces are never re-escaped by later ones. -/
theorem escapeHtmlL_eq_charEsc (s : List Char) : escapeHtmlL s = charEsc s := by
  induction s with
  | nil => rfl
  | cons x xs ih =>
    have h : x :: xs = [x] ++ xs := rfl
    rw [h, escapeHtmlL_append, escapeHtmlL_single, ih]
    rfl

theorem isPrefixOf_append_self (l₁ l₂ : List Char) :
    l₁.isPrefixOf (l₁ ++ l₂) = true := by
  induction l₁ with
  | nil => simp [List.isPrefixOf]
  | cons x xs ih => simp [List.isPrefixOf, ih]

theorem noRawAngles_escChar (c : Char) : noRawAngles (escChar c) = true := by
  unfold escChar
  split
  · decide
  · split
    · decide
    · split
      · decide
      · split
        · decide
        · simp_all [noRawAngles]

theorem noRawAngles_append (l₁ l₂ : List Char) :
    noRawAngles (l₁ ++ l₂) = (noRawAngles l₁ && noRawAngles l₂) := by
  simp [noRawAngles]

/-- `escapeHtml` leaves no raw `<`, `>` or `"` in its output. -/
theorem noRawAngles_escapeHtmlL (s : List Char) :
    noRawAngles (escapeHtmlL s) = true := by
  rw [escapeHtmlL_eq_charEsc]
  induction s with
  | nil => rfl
  | cons x xs ih =>
    show noRawAngles (escChar x ++ charEsc xs) = true
    rw [noRawAngles_append, noRawAngles_escChar, ih]
    rfl

theorem ampEntitiesOk_cons_ne (c : Char) (l : List Char) (h : ¬ c = '&') :
    ampEntitiesOk (c :: l) = ampEntitiesOk l := by
  simp [ampEntitiesOk, h]

/-- Every `&` in `escapeHtml`'s output starts one of the four entities. -/
theorem ampEntitiesOk_escapeHtmlL (s : List Char) :
    ampEntitiesOk (escapeHtmlL s) = true := by
  rw [escapeHtmlL_eq_charEsc]
  induction s with
  | nil => rfl
  | cons x xs ih =>
    show ampEntitiesOk (escChar x ++ charEsc xs) = true
    unfold escChar
    split
    · show ampEntitiesOk ('&' :: ("amp;".data ++ charEsc xs)) = true
      rw [show ampEntitiesOk ('&' :: ("amp;".data ++ charEsc xs))
            = (("amp;".data.isPrefixOf ("amp;".data ++ charEsc xs) ||
                "lt;".data.isPrefixOf ("amp;".data ++ charEsc xs) ||
                "gt;".data.isPrefixOf ("amp;".data ++ charEsc xs) ||
                "quot;".data.isPrefixOf ("amp;".data ++ charEsc xs)) &&
               ampEntitiesOk ("amp;".data ++ charEsc xs)) from rfl]
      rw [isPrefixOf_append_self]
      simp only [Bool.true_or, Bool.true_and]
      show ampEntitiesOk ('a' :: 'm' :: 'p' :: ';' :: charEsc xs) = true
      rw [ampEntitiesOk_cons_ne _ _ (by decide),
          ampEntitiesOk_cons_ne _ _ (by decide),
          ampEntitiesOk_cons_ne _ _ (by decide),
          ampEntitiesOk_cons_ne _ _ (by decide)]
      exact ih
    · split
      · show ampEntitiesOk ('&' :: ("lt;".data ++ charEsc xs)) = true
        rw [show ampEntitiesOk ('&' :: ("lt;".data ++ charEsc xs))
              = (("amp;".data.isPrefixOf ("lt;".data ++ charEsc xs) ||
                  "lt;".data.isPrefixOf ("lt;".data ++ charEsc xs) ||
                  "gt;".data.isPrefixOf ("lt;".data ++ charEsc xs) ||
                  "quot;".data.isPrefixOf ("lt;".data ++ charEsc xs)) &&
                 ampEntitiesOk ("lt;".data ++ charEsc xs)) from rfl]
        rw [isPrefixOf_append_self]
        simp only [Bool.or_true, Bool.true_or, Bool.true_and]
        show ampEntitiesOk ('l' :: 't' :: ';' :: charEsc xs) = true
        rw [ampEntitiesOk_cons_ne _ _ (by decide),
            ampEntitiesOk_cons_ne _ _ (by decide),
            ampEntitiesOk_cons_ne _ _ (by decide)]
        exact ih
      · split
        · show ampEntitiesOk ('&' :: ("gt;".data ++ charEsc xs)) = true
          rw [show ampEntitiesOk ('&' :: ("gt;".data ++ charEsc xs))
                = (("amp;".data.isPrefixOf ("gt;".data ++ charEsc xs) ||
                    "lt;".data.isPrefixOf ("gt;".data ++ charEsc xs) ||
                    "gt;".data.isPrefixOf ("gt;".data ++ charEsc xs) ||
                    "quot;".data.isPrefixOf ("gt;".data ++ charEsc xs)) &&
                   ampEntitiesOk ("gt;".data ++ charEsc xs)) from rfl]
          rw [isPrefixOf_append_self]
          simp only [Bool.or_true, Bool.true_or, Bool.true_and]
          show ampEntitiesOk ('g' :: 't' :: ';' :: charEsc xs) = true
          rw [ampEntitiesOk_cons_ne _ _ (by decide),
              ampEntitiesOk_cons_ne _ _ (by decide),
              ampEntitiesOk_cons_ne _ _ (by decide)]
          exact ih
        · split
          · show ampEntitiesOk ('&' :: ("quot;".data ++ charEsc xs)) = true
            rw [show ampEntitiesOk ('&' :: ("quot;".data ++ charEsc xs))
                  = (("amp;".data.isPrefixOf ("quot;".data ++ charEsc xs) ||
                      "lt;".data.isPrefixOf ("quot;".data ++ charEsc xs) ||
                      "gt;".data.isPrefixOf ("quot;".data ++ charEsc xs) ||
                      "quot;".data.isPrefixOf ("quot;".data ++ charEsc xs)) &&
                     ampEntitiesOk ("quot;".data ++ charEsc xs)) from rfl]
            rw [isPrefixOf_append_self]
            simp only [Bool.or_true, Bool.true_and]
            show ampEntitiesOk ('q' :: 'u' :: 'o' :: 't' :: ';' :: charEsc xs) = true
            rw [ampEntitiesOk_cons_ne _ _ (by decide),
                ampEntitiesOk_cons_ne _ _ (by decide),
                ampEntitiesOk_cons_ne _ _ (by decide),
                ampEntitiesOk_cons_ne _ _ (by decide),
                ampEntitiesOk_cons_ne _ _ (by decide)]
            exact ih
          · rename_i h₁ h₂ h₃ h₄
            rw [List.singleton_append, ampEntitiesOk_cons_ne _ _ h₁]
            exact ih

/-- Undoing `<br/>` after inserting it recovers the original, provided the
original had no raw `<` (which `escapeHtml` guarantees). -/
theorem unbrify_brify (m : List Char) (h : noRawAngles m = true) :
    unbrify (brify m) = m := by
  induction m with
  | nil =>
    show unbrify [] = []
    rw [unbrify]
  | cons x xs ih =>
    have hxlt : ¬ x = '<' := by
      intro hc
      simp [noRawAngles, List.all_cons, hc] at h
    have hxs : noRawAngles xs = true := by
      simp only [noRawAngles, List.all_cons, Bool.and_eq_true] at h
      exact h.2
    have hb : brify (x :: xs) = (if x = '\n' then "<br/>".data else [x]) ++ brify xs := rfl
    rw [hb]
    by_cases hn : x = '\n'
    · rw [if_pos hn]
      show unbrify ('<' :: ("br/>".data ++ brify xs)) = x :: xs
      rw [unbrify, if_pos (by rw [isPrefixOf_append_self]; rfl)]
      rw [show ("br/>".data ++ brify xs).drop 4 = brify xs from rfl, ih hxs, hn]
    · rw [if_neg hn]
      show unbrify (x :: brify xs) = x :: xs
      rw [unbrify, if_neg (by simp [hxlt]), ih hxs]

/-- A cell built by escaping and then replacing newlines with `<br/>` is
safe: its only angle brackets belong to `<br/>` tags. -/
theorem cellSafe_brify (m : List Char) (h : noRawAngles m = true) :
    cellSafe (brify m) = true := by
  unfold cellSafe
  rw [unbrify_brify m h]
  exact h

/-! ### JS values

`JVal` models the JS values reachable from a parsed request body: the JSON
value types plus nothing else (form parsers only produce string-valued
objects).  JS numbers are modelled as integers; no claim involves
non-integer numerics.  `undefined` is not a `JVal`: missing properties are
modelled with `Option`. -/

inductive JVal where
  | jnull
  | jbool (b : Bool)
  | jnum (n : Int)
  | jstr (s : String)
  | jarr (elems : List JVal)
  | jobj (fields : List (String × JVal))

/-- JS exceptions that can reach the handler's top-level `catch`. -/
inductive JsErr where
  | typeError (msg : String)
  | jsError (msg : String)
  deriving DecidableEq, Repr

/-- `String(err)` on an `Error` object: `name + ": " + message`. -/
def jsErrString : JsErr → String
  | .typeError m => "TypeError: " ++ m
  | .jsError m => "Error: " ++ m

/-- JS truthiness of a `JVal` (`NaN` not modelled). -/
def jsTruthy : JVal → Bool
  | .jnull => false
  | .jbool b => b
  | .jnum n => !(n = 0)
  | .jstr s => !(s = "")
  | .jarr _ => true
  | .jobj _ => true

mutual

/-- `String(v)` / template-literal coercion.  `jsArrayJoin` is
`Array.prototype.join`: `null` elements contribute empty text, other
elements are recursively coerced. -/
def jsToString : JVal → String
  | .jnull => "null"
  | .jbool true => "true"
  | .jbool false => "false"
  | .jnum n => toString n
  | .jstr s => s
  | .jarr xs => jsArrayJoin "," xs
  | .jobj _ => "[object Object]"

def jsArrayJoin (sep : String) : List JVal → String
  | [] => ""
  | [.jnull] => ""
  | [v] => jsToString v
  | .jnull :: vs => sep ++ jsArrayJoin sep vs
  | v :: vs => jsToString v ++ sep ++ jsArrayJoin sep vs

end

/-- Enumerable own properties inherited lookups can also see: the properties
of `Object.prototype` (all non-enumerable, but visible to the `in`
operator). -/
def objectProtoProps : List String :=
  ["constructor", "hasOwnProperty", "isPrototypeOf", "propertyIsEnumerable",
   "toLocaleString", "toString", "valueOf",
   "__defineGetter__", "__defineSetter__", "__lookupGetter__",
   "__lookupSetter__", "__proto__"]

/-- `String.toNat?`, list-based: `some n` iff the text is all digits and
nonempty (canonical-index subtleties such as leading zeros are not
modelled; no handler key is numeric). -/
def strToNat? (s : String) : Option Nat :=
  if !s.data.isEmpty && s.data.all Char.isDigit then
    some (s.data.foldl (fun n c => n * 10 + (c.toNat - 48)) 0)
  else none

/-- Own-property lookup on an object's field list (keys are unique in any
field list produced by a JS object, so first match suffices). -/
def objGet (fields : List (String × JVal)) (k : String) : Option JVal :=
  (fields.find? (fun p => p.1 = k)).map Prod.snd

def objHasKey (fields : List (String × JVal)) (k : String) : Bool :=
  fields.any (fun p => p.1 = k)

/-- `CreateDataProperty` semantics: an existing key keeps its position and
gets the new value, a new key is appended. -/
def objInsert (fields : List (String × JVal)) (k : String) (v : JVal) :
    List (String × JVal) :=
  if objHasKey fields k then
    fields.map (fun p => if p.1 = k then (k, v) else p)
  else fields ++ [(k, v)]

/-- `Object.fromEntries` over string pairs (integer-like keys are not
reordered in this model; no claim involves them). -/
def jsFromEntries (es : List (String × String)) : List (String × JVal) :=
  es.foldl (fun acc p => objInsert acc p.1 (.jstr p.2)) []

/-- Property read `v[k]` for the keys the handler reads (field names; none
of them is a built-in method name, so prototype methods of `Array`,
`String` etc. are not modelled as readable values).  Reading from `null`
throws. -/
def jsGetProp (v : JVal) (k : String) : Except JsErr (Option JVal) :=
  match v with
  | .jnull => .error (.typeError
      ("Cannot read properties of null (reading '" ++ k ++ "')"))
  | .jobj fs => .ok (objGet fs k)
  | .jarr xs => .ok ((strToNat? k).bind fun i => xs.get? i)
  | .jstr s => .ok ((strToNat? k).bind fun i => (s.data.get? i).map (fun c => .jstr ⟨[c]⟩))
  | .jnum _ => .ok none
  | .jbool _ => .ok none

/-- The `in` operator: sees own keys and inherited `Object.prototype`
properties; on a primitive or `null` right operand it throws a `TypeError`
(message per V8).  Inherited `Array.prototype` / `String.prototype` method
names are not modelled: no key the handler queries collides with one. -/
def jsIn (k : String) (v : JVal) : Except JsErr Bool :=
  match v with
  | .jobj fs => .ok (objHasKey fs k || objectProtoProps.contains k)
  | .jarr xs => .ok (((strToNat? k).map (fun i => decide (i < xs.length))).getD false ||
      k = "length" || objectProtoProps.contains k)
  | v => .error (.typeError
      ("Cannot use 'in' operator to search for '" ++ k ++ "' in " ++ jsToString v))

/-- `Object.entries`: own enumerable string-keyed properties.  For strings
and arrays these are the indexed elements; numbers and booleans have none;
`null` throws. -/
def jsOwnEntries (v : JVal) : Except JsErr (List (String × JVal)) :=
  match v with
  | .jnull => .error (.typeError "Cannot convert undefined or null to object")
  | .jobj fs => .ok fs
  | .jarr xs => .ok (xs.enum.map (fun p => (toString p.1, p.2)))
  | .jstr s => .ok (s.data.enum.map (fun p => (toString p.1, JVal.jstr ⟨[p.2]⟩)))
  | .jnum _ => .ok []
  | .jbool _ => .ok []

/-! ### `URLSearchParams`

`new URLSearchParams(text)` never throws: it splits on `&`, skips empty
segments, splits each segment at its first `=`, and percent-decodes names
and values (`+` becomes a space).  Percent sequences for bytes ≥ 0x80
(multi-byte UTF-8) are left undecoded in this model; no claim involves
them. -/

def hexDigitVal (c : Char) : Option Nat :=
  if '0' ≤ c ∧ c ≤ '9' then some (c.toNat - 48)
  else if 'a' ≤ c ∧ c ≤ 'f' then some (c.toNat - 87)
  else if 'A' ≤ c ∧ c ≤ 'F' then some (c.toNat - 55)
  else none

def urlDecodeChars : List Char → List Char
  | [] => []
  | '+' :: cs => ' ' :: urlDecodeChars cs
  | '%' :: c₁ :: c₂ :: cs =>
    match hexDigitVal c₁, hexDigitVal c₂ with
    | some h₁, some h₂ =>
      if h₁ * 16 + h₂ < 128 then Char.ofNat (h₁ * 16 + h₂) :: urlDecodeChars cs
      else '%' :: c₁ :: c₂ :: urlDecodeChars cs
    | _, _ => '%' :: urlDecodeChars (c₁ :: c₂ :: cs)
  | c :: cs => c :: urlDecodeChars cs

/-- Split a `name=value` segment at its first `=` (a missing `=` yields an
empty value). -/
def splitFirstEq (seg : List Char) : List Char × List Char :=
  match seg.findIdx? (· = '=') with
  | none => (seg, [])
  | some i => (seg.take i, seg.drop (i + 1))

/-- The ordered pair list of `new URLSearchParams(text)`. -/
def urlParamsOf (text : String) : List (String × String) :=
  let t := match text.data with
    | '?' :: rest => rest
    | l => l
  ((t.splitOn '&').filter (fun seg => !seg.isEmpty)).map fun seg =>
    let p := splitFirstEq seg
    (⟨urlDecodeChars p.1⟩, ⟨urlDecodeChars p.2⟩)

/-! ### `JSON.parse`

A fuel-indexed recursive-descent parser for the JSON grammar, with two
documented simplifications that no claim depends on: numeric literals are
restricted to (optionally signed) integers, and `\uXXXX` escapes decode a
single code unit without combining surrogate pairs. -/

def isJsonWs (c : Char) : Bool :=
  c = ' ' || c = '\t' || c = '\n' || c = '\r'

def skipWs : List Char → List Char
  | [] => []
  | c :: cs => if isJsonWs c then skipWs cs else c :: cs

def parseDigits (l : List Char) : Option (Nat × List Char) :=
  let ds := l.takeWhile Char.isDigit
  if ds.isEmpty then none
  else some (ds.foldl (fun n c => n * 10 + (c.toNat - 48)) 0, l.dropWhile Char.isDigit)

/-- Parse the remainder of a JSON string literal (after the opening quote).
Returns the decoded content and the text after the closing quote. -/
def parseJStr : Nat → List Char → Option (List Char × List Char)
  | 0, _ => none
  | _ + 1, [] => none
  | fuel + 1, c :: cs =>
    if c = '"' then some ([], cs)
    else if c = '\\' then
      match cs with
      | [] => none
      | e :: cs₁ =>
        if e = '"' then (parseJStr fuel cs₁).map fun p => ('"' :: p.1, p.2)
        else if e = '\\' then (parseJStr fuel cs₁).map fun p => ('\\' :: p.1, p.2)
        else if e = '/' then (parseJStr fuel cs₁).map fun p => ('/' :: p.1, p.2)
        else if e = 'n' then (parseJStr fuel cs₁).map fun p => ('\n' :: p.1, p.2)
        else if e = 't' then (parseJStr fuel cs₁).map fun p => ('\t' :: p.1, p.2)
        else if e = 'r' then (parseJStr fuel cs₁).map fun p => ('\r' :: p.1, p.2)
        else if e = 'b' then (parseJStr fuel cs₁).map fun p => ('\x08' :: p.1, p.2)
        else if e = 'f' then (parseJStr fuel cs₁).map fun p => ('\x0C' :: p.1, p.2)
        else if e = 'u' then
          match cs₁ with
          | h₁ :: h₂ :: h₃ :: h₄ :: cs₂ =>
            match hexDigitVal h₁, hexDigitVal h₂, hexDigitVal h₃, hexDigitVal h₄ with
            | some v₁, some v₂, some v₃, some v₄ =>
              (parseJStr fuel cs₂).map fun p =>
                (Char.ofNat (((v₁ * 16 + v₂) * 16 + v₃) * 16 + v₄) :: p.1, p.2)
            | _, _, _, _ => none
          | _ => none
        else none
    else if c.toNat < 32 then none
    else (parseJStr fuel cs).map fun p => (c :: p.1, p.2)

/-- Normalise a parsed field list to JS object semantics: a duplicated key
keeps its first position and its last value. -/
def objFromList (fs : List (String × JVal)) : List (String × JVal) :=
  fs.foldl (fun acc p => objInsert acc p.1 p.2) []

mutual

def parseJVal : Nat → List Char → Option (JVal × List Char)
  | 0, _ => none
  | fuel + 1, l =>
    match skipWs l with
    | 'n' :: 'u' :: 'l' :: 'l' :: cs => some (.jnull, cs)
    | 't' :: 'r' :: 'u' :: 'e' :: cs => some (.jbool true, cs)
    | 'f' :: 'a' :: 'l' :: 's' :: 'e' :: cs => some (.jbool false, cs)
    | '"' :: cs => (parseJStr fuel cs).map fun p => (.jstr ⟨p.1⟩, p.2)
    | '[' :: cs =>
      match skipWs cs with
      | ']' :: cs₁ => some (.jarr [], cs₁)
      | cs₁ => (parseJElems fuel cs₁).map fun p => (.jarr p.1, p.2)
    | '{' :: cs =>
      match skipWs cs with
      | '}' :: cs₁ => some (.jobj [], cs₁)
      | cs₁ => (parseJFields fuel cs₁).map fun p => (.jobj (objFromList p.1), p.2)
    | '-' :: cs => (parseDigits cs).map fun p => (.jnum (-(p.1 : Int)), p.2)
    | c :: cs =>
      if c.isDigit then (parseDigits (c :: cs)).map fun p => (.jnum (p.1 : Int), p.2)
      else none
    | [] => none

def parseJElems : Nat → List Char → Option (List JVal × List Char)
  | 0, _ => none
  | fuel + 1, l =>
    (parseJVal fuel l).bind fun p =>
      match skipWs p.2 with
      | ',' :: cs => (parseJElems fuel cs).map fun q => (p.1 :: q.1, q.2)
      | ']' :: cs => some ([p.1], cs)
      | _ => none

def parseJFields : Nat → List Char → Option (List (String × JVal) × List Char)
  | 0, _ => none
  | fuel + 1, l =>
    match skipWs l with
    | '"' :: cs =>
      (parseJStr fuel cs).bind fun pk =>
        match skipWs pk.2 with
        | ':' :: cs₁ =>
          (parseJVal fuel cs₁).bind fun pv =>
            match skipWs pv.2 with
            | ',' :: cs₂ =>
              (parseJFields fuel cs₂).map fun q => ((⟨pk.1⟩, pv.1) :: q.1, q.2)
            | '}' :: cs₂ => some ([(⟨pk.1⟩, pv.1)], cs₂)
            | _ => none
        | _ => none
    | _ => none

end

/-- `JSON.parse`: the whole text must be one JSON value surrounded only by
whitespace. -/
def jsonParse (s : String) : Option JVal :=
  match parseJVal (2 * s.length + 8) s.data with
  | some p => if skipWs p.2 = [] then some p.1 else none
  | none => none

/-! ### `JSON.stringify` -/

def hexDigitChar (n : Nat) : Char :=
  if n < 10 then Char.ofNat (48 + n) else Char.ofNat (87 + n)

/-- Escaping of one character inside a JSON string literal. -/
def jsonEscCharL (c : Char) : List Char :=
  if c = '"' then ['\\', '"']
  else if c = '\\' then ['\\', '\\']
  else if c = '\n' then ['\\', 'n']
  else if c = '\r' then ['\\', 'r']
  else if c = '\t' then ['\\', 't']
  else if c = '\x08' then ['\\', 'b']
  else if c = '\x0C' then ['\\', 'f']
  else if c.toNat < 32 then
    ['\\', 'u', '0', '0', hexDigitChar (c.toNat / 16), hexDigitChar (c.toNat % 16)]
  else [c]

def jsonQuote (s : String) : String :=
  "\"" ++ ⟨s.data.flatMap jsonEscCharL⟩ ++ "\""

def indentS (n : Nat) : String := ⟨List.replicate (2 * n) ' '⟩

mutual

/-- `JSON.stringify(v, null, 2)` at nesting depth `ind`. -/
def jsonStringify2At : Nat → JVal → String
  | _, .jnull => "null"
  | _, .jbool true => "true"
  | _, .jbool false => "false"
  | _, .jnum n => toString n
  | _, .jstr s => jsonQuote s
  | _, .jarr [] => "[]"
  | ind, .jarr (x :: xs) =>
    "[\n" ++ jsonItems2 (ind + 1) (x :: xs) ++ "\n" ++ indentS ind ++ "]"
  | _, .jobj [] => "\x7b\x7d"
  | ind, .jobj (f :: fs) =>
    "\x7b\n" ++ jsonFields2 (ind + 1) (f :: fs) ++ "\n" ++ indentS ind ++ "\x7d"

def jsonItems2 : Nat → List JVal → String
  | _, [] => ""
  | ind, [v] => indentS ind ++ jsonStringify2At ind v
  | ind, v :: vs =>
    indentS ind ++ jsonStringify2At ind v ++ ",\n" ++ jsonItems2 ind vs

def jsonFields2 : Nat → List (String × JVal) → String
  | _, [] => ""
  | ind, [f] => indentS ind ++ jsonQuote f.1 ++ ": " ++ jsonStringify2At ind f.2
  | ind, f :: fs =>
    indentS ind ++ jsonQuote f.1 ++ ": " ++ jsonStringify2At ind f.2 ++ ",\n" ++
      jsonFields2 ind fs

end

/-- `JSON.stringify(data, null, 2)` as used for the raw dump. -/
def jsonStringifyPretty (v : JVal) : String := jsonStringify2At 0 v

/-! ### Request, environment, response -/

/-- The inbound request, with the results of the platform's body primitives
as oracle inputs: `bodyText` is what `req.text()` resolves to (`.error` =
the stream read rejects), `formDataResult` is what `req.formData()`
resolves to (multipart syntax is the platform's concern; file parts are not
modelled, every part value is text). -/
structure Request where
  method : String
  contentType : Option String
  bodyText : Except Unit String
  formDataResult : Except Unit (List (String × String))
  deriving Repr

/-- Process environment: `none` = variable absent. -/
structure Env where
  SITE_NAME : Option String
  TO_EMAIL : Option String
  FROM_EMAIL : Option String
  BREVO_API_KEY : Option String
  deriving DecidableEq, Repr

/-- JS truthiness of `process.env.X` (absent reads as `undefined`). -/
def envTruthy : Option String → Bool
  | none => false
  | some s => !(s = "")

/-- `process.env.X || dflt`. -/
def envOr (v : Option String) (dflt : String) : String :=
  match v with
  | some s => if s = "" then dflt else s
  | none => dflt

structure HttpResponse where
  status : Nat
  body : String
  contentType : String
  cacheControl : Option String
  deriving DecidableEq, Repr

def jsonResponse (status : Nat) (body : String) : HttpResponse :=
  { status := status, body := body,
    contentType := "application/json; charset=utf-8", cacheControl := none }

/-- `JSON.stringify({ error: msg })`. -/
def errorBody (msg : String) : String :=
  "\x7b\"error\":" ++ jsonQuote msg ++ "\x7d"

/-- `JSON.stringify({ error: "Brevo API error", details: details })`. -/
def brevoErrorBody (details : String) : String :=
  "\x7b\"error\":\"Brevo API error\",\"details\":" ++ jsonQuote details ++ "\x7d"

/-- `JSON.stringify({ ok: true })`. -/
def okBody : String := "\x7b\"ok\":true\x7d"

def missingEnvMsg : String :=
  "Missing environment variables. Please configure BREVO_API_KEY, TO_EMAIL, FROM_EMAIL."

/-- The provider's reply to the outbound `fetch`: HTTP status plus the
result of `res.text()` (`none` = the body read rejects; the source
substitutes `""` via `.catch`). -/
structure ProviderResp where
  status : Nat
  textResult : Option String
  deriving DecidableEq, Repr

/-- `Response.ok`. -/
def respOk (r : ProviderResp) : Bool := 200 ≤ r.status && r.status ≤ 299

/-- One outbound call to the Brevo endpoint: the `api-key` header and the
JSON payload. -/
structure EmailPayload where
  apiKey : String
  senderEmail : String
  senderName : String
  recipient : String
  subject : String
  htmlContent : String
  deriving DecidableEq, Repr

/-! ### Body Normalizer (source lines 15–36) -/

/-- The JSON-then-urlencoded fallback applied to a body text (source lines
29–30 and 33–35): `JSON.parse(text || "{}")`, and on failure
`Object.fromEntries(new URLSearchParams(text))`. -/
def parseFallback (text : String) : JVal :=
  match jsonParse (if text = "" then "\x7b\x7d" else text) with
  | some v => v
  | none => .jobj (jsFromEntries (urlParamsOf text))

/-- The outer parse `catch` (source lines 32–36).  At every reachable throw
the body stream has already errored or been consumed, so the re-read
`req.text()` rejects and `.catch(() => "")` substitutes `""`; the fallback
on `""` parses `"{}"`, the empty object. -/
def catchParseData : JVal := parseFallback ""

/-- The Body Normalizer: produce `data` from the request.  Total — no
parsing failure escapes. -/
def normalizeBody (req : Request) : JVal :=
  let ct := jsToLowerCase (req.contentType.getD "")
  if jsIncludes ct "application/json" then
    match req.bodyText with
    | .ok t =>
      match jsonParse t with
      | some v => v
      | none => catchParseData
    | .error _ => catchParseData
  else if jsIncludes ct "application/x-www-form-urlencoded" then
    match req.bodyText with
    | .ok t => .jobj (jsFromEntries (urlParamsOf t))
    | .error _ => catchParseData
  else if jsIncludes ct "multipart/form-data" then
    match req.formDataResult with
    | .ok es => .jobj (jsFromEntries es)
    | .error _ => catchParseData
  else
    match req.bodyText with
    | .ok t => parseFallback t
    | .error _ => catchParseData

/-! ### Presentation Builder (source lines 50–105) -/

/-- `labelMap` in its fixed declaration order. -/
def labelMapPairs : List (String × String) :=
  [("customer_name", "姓名/LINE"),
   ("q1", "服務滿意度"),
   ("q2", "專業程度"),
   ("q2_extra", "專業程度備註"),
   ("q3", "服務人員表現 (1-5)"),
   ("q4", "推薦度 (1-10)"),
   ("q5", "是否再次委託"),
   ("q6", "其他建議")]

/-- `Object.keys(labelMap)`: own keys in declaration order. -/
def labelMapKeys : List String := labelMapPairs.map Prod.fst

/-- `labelMap[k] || k`.  Own-key lookup suffices: the keys reaching row
rendering are either own `labelMap` keys or keys for which `k in labelMap`
was false, hence not `Object.prototype` names either. -/
def labelFor (k : String) : String :=
  ((labelMapPairs.find? (fun p => p.1 = k)).map Prod.snd).getD k

/-- `k in labelMap`: own keys plus inherited `Object.prototype` names. -/
def inLabelMapObj (k : String) : Bool :=
  labelMapKeys.contains k || objectProtoProps.contains k

def skipKeys : List String :=
  ["bot-field", "form-name", "g-recaptcha-response", "submit",
   "userAgent", "submittedAt"]

/-- `data.customer_name || data.name || data.line || data["姓名"] || ""`:
first truthy alias value, else the empty string; reading any property of a
`null` body throws. -/
def firstTruthy (data : JVal) : List String → Except JsErr JVal
  | [] => .ok (.jstr "")
  | k :: ks => do
    let v ← jsGetProp data k
    match v with
    | some w => if jsTruthy w then .ok w else firstTruthy data ks
    | none => firstTruthy data ks

def customerNameOf (data : JVal) : Except JsErr JVal :=
  firstTruthy data ["customer_name", "name", "line", "姓名"]

/-- The fixed subject line. -/
def subjectOf (data : JVal) : Except JsErr String := do
  let cn ← customerNameOf data
  return "【服務滿意度】新問卷回覆：" ++
    (if jsTruthy cn then jsToString cn else "未填姓名")

/-- `Object.keys(labelMap).filter((k) => k in data).map((k) => [k, data[k]])`.
The `in` test throws on a primitive body.  When `in` holds, the handler's
keys are own properties, so the `Option` default below is unreachable. -/
def labelPart (data : JVal) : List String → Except JsErr (List (String × JVal))
  | [] => .ok []
  | k :: ks => do
    let b ← jsIn k data
    if b then
      let v ← jsGetProp data k
      let rest ← labelPart data ks
      return (k, v.getD .jnull) :: rest
    else
      labelPart data ks

/-- The `for (const [k, v] of Object.entries(data))` append loop. -/
def appendLoop (acc : List (String × JVal)) :
    List (String × JVal) → List (String × JVal)
  | [] => acc
  | (k, v) :: rest =>
    if skipKeys.contains k then appendLoop acc rest
    else if !inLabelMapObj k && !(acc.any (fun p => p.1 = k)) then
      appendLoop (acc ++ [(k, v)]) rest
    else appendLoop acc rest

def orderedPairsOf (data : JVal) : Except JsErr (List (String × JVal)) := do
  let fp ← labelPart data labelMapKeys
  let es ← jsOwnEntries data
  return appendLoop fp es

/-- `Array.isArray(v) ? v.join(", ") : String(v ?? "")`. -/
def renderValString : JVal → String
  | .jarr xs => jsArrayJoin ", " xs
  | .jnull => ""
  | v => jsToString v

/-- `escapeHtml(val).replace(/\n/g,"<br/>") || "(未填)"`. -/
def renderCell (v : JVal) : String :=
  let e : String := ⟨brify (escapeHtmlL (renderValString v).data)⟩
  if e = "" then "(未填)" else e

def renderRow (k : String) (v : JVal) : String :=
  "<tr><th align=\"left\" style=\"white-space:nowrap\">" ++
    escapeHtml (labelFor k) ++ "</th><td>" ++ renderCell v ++ "</td></tr>"

/-- The joined labeled rows (skip-set keys filtered once more). -/
def rowsOf (pairs : List (String × JVal)) : String :=
  String.intercalate "\n"
    ((pairs.filter (fun p => !skipKeys.contains p.1)).map
      (fun p => renderRow p.1 p.2))

/-- `data.submittedAt || new Date().toISOString()`, coerced to text as the
surrounding `escapeHtml` does. -/
def submittedAtStr (data : JVal) (now : String) : Except JsErr String := do
  let v ← jsGetProp data "submittedAt"
  return match v with
    | some w => if jsTruthy w then jsToString w else now
    | none => now

/-- `data.userAgent || ""`. -/
def userAgentStr (data : JVal) : Except JsErr String := do
  let v ← jsGetProp data "userAgent"
  return match v with
    | some w => if jsTruthy w then jsToString w else ""
    | none => ""

/-- The `htmlContent` template up to and including the opening of the
table (heading = the escaped subject). -/
def docHead (subject : String) : String :=
  "\n      <div style=\"font-family:Arial,Helvetica,sans-serif;line-height:1.6\">\n        <h2>"
  ++ escapeHtml subject
  ++ "</h2>\n        <table border=\"1\" cellpadding=\"8\" cellspacing=\"0\" style=\"border-collapse:collapse;width:100%;max-width:760px\">\n          "

/-- `${rows || '<tr><td>(沒有欄位資料)</td></tr>'}`: the zero-rows
placeholder row. -/
def zeroRowsPlaceholder : String := "<tr><td>(沒有欄位資料)</td></tr>"

/-- The two envelope rows that always close the table body. -/
def envelopeRowsStr (subAt ua : String) : String :=
  "\n          <tr><th align=\"left\">送出時間</th><td>"
  ++ escapeHtml subAt
  ++ "</td></tr>\n          <tr><th align=\"left\">User-Agent</th><td>"
  ++ escapeHtml ua
  ++ "</td></tr>"

/-- The template after the table: the escaped raw JSON dump in a `<pre>`
block. -/
def docTail (jsonDump : String) : String :=
  "\n        </table>\n        <pre style=\"margin-top:12px;background:#f6f8fa;padding:12px;border-radius:6px;overflow:auto\">"
  ++ escapeHtml jsonDump
  ++ "</pre>\n      </div>\n    "

/-- The `htmlContent` template literal, whitespace included. -/
def htmlDocOf (subject rowsStr subAt ua jsonDump : String) : String :=
  docHead subject
  ++ (if rowsStr = "" then zeroRowsPlaceholder else rowsStr)
  ++ envelopeRowsStr subAt ua
  ++ docTail jsonDump

/-- Subject and document for a body, current time given (lines 50–105). -/
def buildEmail (data : JVal) (now : String) : Except JsErr (String × String) := do
  let subject ← subjectOf data
  let pairs ← orderedPairsOf data
  let rowsStr := rowsOf pairs
  let subAt ← submittedAtStr data now
  let ua ← userAgentStr data
  return (subject, htmlDocOf subject rowsStr subAt ua (jsonStringifyPretty data))

/-! ### The handler -/

/-- The handler's observable outcome: the HTTP response and the payloads
posted to the Brevo endpoint. -/
structure Outcome where
  response : HttpResponse
  brevoCalls : List EmailPayload
  deriving Repr

/-- Everything inside the top-level `try` (source lines 7–137).
`fetchResult` is the oracle outcome of the single possible outbound call
(`.error` = the `fetch` promise rejects). -/
def handlerCore (req : Request) (env : Env) (now : String)
    (fetchResult : Except JsErr ProviderResp) :
    List EmailPayload × Except JsErr HttpResponse :=
  if !(req.method = "POST") then
    ([], .ok (jsonResponse 405 (errorBody "Method Not Allowed")))
  else
    let data := normalizeBody req
    let siteName := envOr env.SITE_NAME "顧客滿意度調查"
    let toEmail := env.TO_EMAIL.getD ""
    let fromEmail := env.FROM_EMAIL.getD ""
    let apiKey := env.BREVO_API_KEY.getD ""
    if !envTruthy env.BREVO_API_KEY || !envTruthy env.TO_EMAIL ||
        !envTruthy env.FROM_EMAIL then
      ([], .ok (jsonResponse 500 (errorBody missingEnvMsg)))
    else
      match buildEmail data now with
      | .error e => ([], .error e)
      | .ok se =>
        let payload : EmailPayload :=
          { apiKey := apiKey, senderEmail := fromEmail, senderName := siteName,
            recipient := toEmail, subject := se.1, htmlContent := se.2 }
        match fetchResult with
        | .error e => ([payload], .error e)
        | .ok res =>
          if !respOk res then
            ([payload],
             .ok (jsonResponse 502 (brevoErrorBody (res.textResult.getD ""))))
          else
            ([payload],
             .ok { status := 200, body := okBody,
                   contentType := "application/json; charset=utf-8",
                   cacheControl := some "no-store" })

/-- The full handler: the top-level `catch` turns any thrown error into a
500 response carrying `String(err)`. -/
def handler (req : Request) (env : Env) (now : String)
    (fetchResult : Except JsErr ProviderResp) : Outcome :=
  let r := handlerCore req env now fetchResult
  { response :=
      match r.2 with
      | .ok resp => resp
      | .error e => jsonResponse 500 (errorBody (jsErrString e)),
    brevoCalls := r.1 }

/-! ### Concrete fixtures used by witnesses and counterexamples -/

/-- A fully configured environment. -/
def envFull : Env :=
  { SITE_NAME := none, TO_EMAIL := some "to@example.com",
    FROM_EMAIL := some "from@example.com", BREVO_API_KEY := some "k" }

/-- The same environment with the api key absent. -/
def envNoKey : Env :=
  { SITE_NAME := none, TO_EMAIL := some "to@example.com",
    FROM_EMAIL := some "from@example.com", BREVO_API_KEY := none }

/-- A provider that replies 200 with an empty body. -/
def okFetch : Except JsErr ProviderResp := .ok { status := 200, textResult := some "" }

def nowT : String := "2026-01-01T00:00:00.000Z"

/-- A POST request with a given content type and body text. -/
def postReq (ct : Option String) (body : String) : Request :=
  { method := "POST", contentType := ct, bodyText := .ok body,
    formDataResult := .error () }

/-! ### Claim theorems -/

/-- C5: if any of `BREVO_API_KEY`, `TO_EMAIL`, `FROM_EMAIL` is absent, the
handler returns HTTP 500 with exactly the fixed missing-configuration JSON
body and content type `application/json; charset=utf-8`, and the outbound
Brevo call is never attempted. -/
theorem C5_missing_env_500_no_call
    (req : Request) (env : Env) (now : String)
    (fr : Except JsErr ProviderResp)
    (hm : req.method = "POST")
    (henv : env.BREVO_API_KEY = none ∨ env.TO_EMAIL = none ∨
      env.FROM_EMAIL = none) :
    (handler req env now fr).response.status = 500 ∧
    (handler req env now fr).response.body =
      "\x7b\"error\":\"Missing environment variables. Please configure BREVO_API_KEY, TO_EMAIL, FROM_EMAIL.\"\x7d" ∧
    (handler req env now fr).response.contentType =
      "application/json; charset=utf-8" ∧
    (handler req env now fr).brevoCalls = [] := by
  have hcore : handlerCore req env now fr =
      ([], .ok (jsonResponse 500 (errorBody missingEnvMsg))) := by
    unfold handlerCore
    rw [hm]
    rcases henv with h | h | h <;> simp [h, envTruthy]
  refine ⟨?_, ?_, ?_, ?_⟩ <;> simp [handler, hcore, jsonResponse]
  rfl

theorem C5_missing_env_500_no_call_witness :
    (postReq none "").method = "POST" ∧
    envNoKey.BREVO_API_KEY = none ∧
    (handler (postReq none "") envNoKey nowT okFetch).response.status = 500 ∧
    (handler (postReq none "") envNoKey nowT okFetch).brevoCalls = [] := by
  refine ⟨rfl, rfl, ?_, ?_⟩
  · exact (C5_missing_env_500_no_call _ _ _ _ rfl (Or.inl rfl)).1
  · exact (C5_missing_env_500_no_call _ _ _ _ rfl (Or.inl rfl)).2.2.2

/-- C7: everything thrown inside the top-level `try` is caught and becomes
an HTTP 500 whose JSON body carries `String(err)`; when nothing is thrown
the inner result is returned unchanged — the handler never propagates an
exception. -/
theorem C7_top_level_catch (req : Request) (env : Env) (now : String)
    (fr : Except JsErr ProviderResp) :
    (∀ e, (handlerCore req env now fr).2 = .error e →
      (handler req env now fr).response =
        jsonResponse 500 (errorBody (jsErrString e))) ∧
    (∀ resp, (handlerCore req env now fr).2 = .ok resp →
      (handler req env now fr).response = resp) := by
  constructor
  · intro e h
    simp [handler, h]
  · intro resp h
    simp [handler, h]

set_option maxHeartbeats 1000000 in
theorem C7_top_level_catch_witness :
    (handlerCore (postReq (some "application/json") "null") envFull nowT okFetch).2 =
      .error (.typeError "Cannot read properties of null (reading 'customer_name')") ∧
    (handler (postReq (some "application/json") "null") envFull nowT okFetch).response =
      jsonResponse 500
        (errorBody "TypeError: Cannot read properties of null (reading 'customer_name')") := by
  have h : (handlerCore (postReq (some "application/json") "null") envFull nowT okFetch).2 =
      .error (.typeError "Cannot read properties of null (reading 'customer_name')") := by
    rfl
  exact ⟨h, (C7_top_level_catch _ _ _ _).1 _ h⟩

/-! Helper lemmas: on an object body the Presentation Builder never throws,
and its pieces compute to pure list operations. -/

theorem exceptBindOk {α β ε : Type} (x : α) (f : α → Except ε β) :
    (do let a ← (Except.ok x : Except ε α); f a) = f x := rfl

theorem exceptBindError {α β ε : Type} (e : ε) (f : α → Except ε β) :
    (do let a ← (Except.error e : Except ε α); f a) = .error e := rfl

theorem firstTruthy_obj_ok (fs : List (String × JVal)) (ks : List String) :
    ∃ v, firstTruthy (.jobj fs) ks = .ok v := by
  induction ks with
  | nil => exact ⟨_, rfl⟩
  | cons k ks ih =>
    cases hog : objGet fs k with
    | none =>
      obtain ⟨v, hv⟩ := ih
      exact ⟨v, by simp [firstTruthy, jsGetProp, hog, exceptBindOk, hv]⟩
    | some w =>
      by_cases ht : jsTruthy w = true
      · exact ⟨w, by simp [firstTruthy, jsGetProp, hog, exceptBindOk, ht]⟩
      · obtain ⟨v, hv⟩ := ih
        exact ⟨v, by simp [firstTruthy, jsGetProp, hog, exceptBindOk, ht, hv]⟩

/-- The `labelMap`-ordered part, computed: keys the `in` operator sees on
the body, with their own values. -/
def labelRowsPure (fs : List (String × JVal)) : List (String × JVal) :=
  (labelMapKeys.filter (fun k => objHasKey fs k || objectProtoProps.contains k)).map
    (fun k => (k, (objGet fs k).getD .jnull))

theorem labelPart_obj (fs : List (String × JVal)) (ks : List String) :
    labelPart (.jobj fs) ks =
      .ok ((ks.filter (fun k => objHasKey fs k || objectProtoProps.contains k)).map
        (fun k => (k, (objGet fs k).getD .jnull))) := by
  induction ks with
  | nil => rfl
  | cons k ks ih =>
    simp [labelPart, jsIn, exceptBindOk, jsGetProp, ih, List.filter_cons]
    split
    · rename_i h
      simp [h]
    · rename_i h
      simp [h]

/-- The full ordered pair list on an object body, computed. -/
def orderedPairsPure (fs : List (String × JVal)) : List (String × JVal) :=
  appendLoop (labelRowsPure fs) fs

theorem orderedPairsOf_obj (fs : List (String × JVal)) :
    orderedPairsOf (.jobj fs) = .ok (orderedPairsPure fs) := by
  unfold orderedPairsOf
  rw [labelPart_obj]
  rfl

theorem buildEmail_obj_ok (fs : List (String × JVal)) (now : String) :
    ∃ p, buildEmail (.jobj fs) now = .ok p := by
  obtain ⟨cn, hcn⟩ :=
    firstTruthy_obj_ok fs ["customer_name", "name", "line", "姓名"]
  unfold buildEmail subjectOf customerNameOf orderedPairsOf
  rw [hcn, labelPart_obj]
  exact ⟨_, rfl⟩

/-- C6: a non-success provider status is mapped to HTTP 502 with the fixed
label and the provider text as `details` (an unreadable provider body reads
as empty text). -/
theorem C6_provider_error_502 (req : Request) (env : Env) (now : String)
    (res : ProviderResp) (fs : List (String × JVal))
    (hm : req.method = "POST")
    (hk : envTruthy env.BREVO_API_KEY = true)
    (ht : envTruthy env.TO_EMAIL = true)
    (hf : envTruthy env.FROM_EMAIL = true)
    (hd : normalizeBody req = .jobj fs)
    (hres : respOk res = false) :
    (handler req env now (.ok res)).response =
      jsonResponse 502 (brevoErrorBody (res.textResult.getD "")) := by
  obtain ⟨p, hp⟩ := buildEmail_obj_ok fs now
  have hcore : (handlerCore req env now (.ok res)).2 =
      .ok (jsonResponse 502 (brevoErrorBody (res.textResult.getD ""))) := by
    unfold handlerCore
    rw [hm]
    simp [hd, hk, ht, hf, hp, hres]
  simp [handler, hcore]

theorem C6_provider_error_502_witness :
    respOk ⟨400, some "bad request"⟩ = false ∧
    (⟨400, some "bad request"⟩ : ProviderResp).textResult.getD "" = "bad request" ∧
    (handler (postReq none "") envFull nowT
        (.ok ⟨400, some "bad request"⟩)).response =
      jsonResponse 502 (brevoErrorBody "bad request") ∧
    (handler (postReq none "") envFull nowT
        (.ok ⟨400, some "bad request"⟩)).response.body =
      "\x7b\"error\":\"Brevo API error\",\"details\":\"bad request\"\x7d" := by
  refine ⟨rfl, rfl, ?_, ?_⟩
  · exact C6_provider_error_502 (postReq none "") envFull nowT
      ⟨400, some "bad request"⟩ [] rfl rfl rfl rfl rfl rfl
  · rw [C6_provider_error_502 (postReq none "") envFull nowT
      ⟨400, some "bad request"⟩ [] rfl rfl rfl rfl rfl rfl]
    rfl

/-- On an object body, a configured environment and a success status from
the provider, the handler answers 200. -/
theorem handler_ok_200 (req : Request) (env : Env) (now : String)
    (res : ProviderResp) (fs : List (String × JVal))
    (hm : req.method = "POST")
    (hk : envTruthy env.BREVO_API_KEY = true)
    (ht : envTruthy env.TO_EMAIL = true)
    (hf : envTruthy env.FROM_EMAIL = true)
    (hd : normalizeBody req = .jobj fs)
    (hok : respOk res = true) :
    (handler req env now (.ok res)).response.status = 200 := by
  obtain ⟨p, hp⟩ := buildEmail_obj_ok fs now
  have hcore : (handlerCore req env now (.ok res)).2 =
      .ok { status := 200, body := okBody,
            contentType := "application/json; charset=utf-8",
            cacheControl := some "no-store" } := by
    unfold handlerCore
    rw [hm]
    simp [hd, hk, ht, hf, hp, hok]
  simp [handler, hcore]

/-- C1 counterexample: a POST with no content type whose body `"garbage"`
is not valid JSON does NOT yield an empty field mapping — `URLSearchParams`
decodes any text, here into the single pair `("garbage", "")` — so the
table gets a `garbage` row instead of only the zero-rows placeholder (the
response is still 200). -/
theorem C1_unknown_ct_counterexample :
    jsonParse "garbage" = none ∧
    normalizeBody (postReq none "garbage") = .jobj [("garbage", .jstr "")] ∧
    orderedPairsOf (.jobj [("garbage", .jstr "")]) =
      .ok [("garbage", JVal.jstr "")] ∧
    rowsOf [("garbage", JVal.jstr "")] =
      "<tr><th align=\"left\" style=\"white-space:nowrap\">garbage</th><td>(未填)</td></tr>" ∧
    rowsOf [("garbage", JVal.jstr "")] ≠ "" ∧
    (handler (postReq none "garbage") envFull nowT okFetch).response.status = 200 := by
  refine ⟨rfl, rfl, rfl, rfl, by decide, ?_⟩
  exact handler_ok_200 (postReq none "garbage") envFull nowT ⟨200, some ""⟩
    [("garbage", .jstr "")] rfl rfl rfl rfl rfl rfl

/-- C1 amended: the Body Normalizer never lets a parsing exception escape —
on JSON failure the unknown-content-type fallback yields the URL-decoded
field mapping of the body text, whatever it is.  That mapping can be
nonempty for an unparseable body (see the counterexample) and can be empty
for bodies beyond the empty one (e.g. `"&"`, whose segments are all
empty).  Whenever the fallback produces the empty mapping, then — with
configuration present and a successful provider call — the response is 200
and the table has only the zero-rows placeholder plus the two envelope
rows. -/
theorem C1_fallback_zero_rows (req : Request) (env : Env) (now : String)
    (res : ProviderResp) (t : String)
    (hm : req.method = "POST")
    (hct1 : jsIncludes (jsToLowerCase (req.contentType.getD "")) "application/json" = false)
    (hct2 : jsIncludes (jsToLowerCase (req.contentType.getD "")) "application/x-www-form-urlencoded" = false)
    (hct3 : jsIncludes (jsToLowerCase (req.contentType.getD "")) "multipart/form-data" = false)
    (hbody : req.bodyText = .ok t)
    (hpf : parseFallback t = .jobj [])
    (hk : envTruthy env.BREVO_API_KEY = true)
    (ht : envTruthy env.TO_EMAIL = true)
    (hf : envTruthy env.FROM_EMAIL = true)
    (hok : respOk res = true) :
    (∀ s : String, jsonParse (if s = "" then "\x7b\x7d" else s) = none →
      parseFallback s = .jobj (jsFromEntries (urlParamsOf s))) ∧
    normalizeBody req = .jobj [] ∧
    rowsOf [] = "" ∧
    (handler req env now (.ok res)).response.status = 200 ∧
    (handler req env now (.ok res)).response.body = "\x7b\"ok\":true\x7d" ∧
    (handler req env now (.ok res)).brevoCalls =
      [{ apiKey := env.BREVO_API_KEY.getD "",
         senderEmail := env.FROM_EMAIL.getD "",
         senderName := envOr env.SITE_NAME "顧客滿意度調查",
         recipient := env.TO_EMAIL.getD "",
         subject := "【服務滿意度】新問卷回覆：未填姓名",
         htmlContent :=
           htmlDocOf "【服務滿意度】新問卷回覆：未填姓名" "" now "" "\x7b\x7d" }] := by
  have hnb : normalizeBody req = .jobj [] := by
    unfold normalizeBody
    rw [hbody]
    simp only [hct1, hct2, hct3, if_false]
    exact hpf
  have hbe : buildEmail (.jobj []) now =
      .ok ("【服務滿意度】新問卷回覆：未填姓名",
        htmlDocOf "【服務滿意度】新問卷回覆：未填姓名" "" now "" "\x7b\x7d") := rfl
  have hcore : handlerCore req env now (.ok res) =
      ([{ apiKey := env.BREVO_API_KEY.getD "",
          senderEmail := env.FROM_EMAIL.getD "",
          senderName := envOr env.SITE_NAME "顧客滿意度調查",
          recipient := env.TO_EMAIL.getD "",
          subject := "【服務滿意度】新問卷回覆：未填姓名",
          htmlContent :=
            htmlDocOf "【服務滿意度】新問卷回覆：未填姓名" "" now "" "\x7b\x7d" }],
       .ok { status := 200, body := okBody,
             contentType := "application/json; charset=utf-8",
             cacheControl := some "no-store" }) := by
    unfold handlerCore
    rw [hm]
    simp [hnb, hk, ht, hf, hbe, hok]
  refine ⟨?_, hnb, rfl, ?_, ?_, ?_⟩
  · intro s hs
    unfold parseFallback
    rw [hs]
  · simp [handler, hcore, okBody]
  · simp [handler, hcore, okBody]
  · simp [handler, hcore, okBody]

set_option maxRecDepth 100000 in
theorem C1_fallback_zero_rows_witness :
    jsonParse "&" = none ∧
    urlParamsOf "&" = [] ∧
    parseFallback "&" = .jobj [] ∧
    parseFallback "&" = .jobj (jsFromEntries (urlParamsOf "&")) ∧
    normalizeBody (postReq none "&") = .jobj [] ∧
    (handler (postReq none "&") envFull nowT (.ok ⟨204, some ""⟩)).response.status = 200 ∧
    (handler (postReq none "&") envFull nowT
        (.ok ⟨204, some ""⟩)).brevoCalls.length = 1 ∧
    jsIncludes
      (htmlDocOf "【服務滿意度】新問卷回覆：未填姓名" "" nowT "" "\x7b\x7d")
      "<tr><td>(沒有欄位資料)</td></tr>" = true ∧
    jsIncludes
      (htmlDocOf "【服務滿意度】新問卷回覆：未填姓名" "" nowT "" "\x7b\x7d")
      "送出時間" = true ∧
    jsIncludes
      (htmlDocOf "【服務滿意度】新問卷回覆：未填姓名" "" nowT "" "\x7b\x7d")
      "User-Agent" = true := by
  have h := C1_fallback_zero_rows (postReq none "&") envFull nowT ⟨204, some ""⟩
    "&" rfl rfl rfl rfl rfl rfl rfl rfl rfl rfl
  refine ⟨rfl, rfl, rfl, h.1 "&" rfl, h.2.1, h.2.2.2.1, ?_,
    by decide, by decide, by decide⟩
  rw [h.2.2.2.2.2]
  rfl

/-! Lookup lemmas for `Object.fromEntries` duplicate-key semantics. -/

theorem objGet_cons (p : String × JVal) (rest : List (String × JVal))
    (k : String) :
    objGet (p :: rest) k = if p.1 = k then some p.2 else objGet rest k := by
  by_cases h : p.1 = k <;> simp [objGet, List.find?, h]

theorem objGet_mapRepl_same (ps : List (String × JVal)) (k : String) (v : JVal)
    (h : objHasKey ps k = true) :
    objGet (ps.map (fun p => if p.1 = k then (k, v) else p)) k = some v := by
  induction ps with
  | nil => simp [objHasKey] at h
  | cons p ps ih =>
    rw [List.map_cons]
    by_cases hp : p.1 = k
    · rw [if_pos hp, objGet_cons]
      simp
    · have h' : objHasKey ps k = true := by
        simpa [objHasKey, List.any_cons, hp] using h
      rw [if_neg hp, objGet_cons, if_neg hp]
      exact ih h'

theorem objGet_append_single_same (ps : List (String × JVal)) (k : String)
    (v : JVal) (h : objHasKey ps k = false) :
    objGet (ps ++ [(k, v)]) k = some v := by
  induction ps with
  | nil =>
    rw [List.nil_append, objGet_cons]
    simp
  | cons p ps ih =>
    have hp : ¬ p.1 = k := by
      intro hc
      simp [objHasKey, List.any_cons, hc] at h
    have h' : objHasKey ps k = false := by
      simpa [objHasKey, List.any_cons, hp] using h
    rw [List.cons_append, objGet_cons, if_neg hp]
    exact ih h'

theorem objGet_objInsert_same (fields : List (String × JVal)) (k : String)
    (v : JVal) : objGet (objInsert fields k v) k = some v := by
  unfold objInsert
  by_cases h : objHasKey fields k = true
  · rw [if_pos h]
    exact objGet_mapRepl_same fields k v h
  · rw [if_neg h]
    exact objGet_append_single_same fields k v (by simpa using h)

theorem objGet_mapRepl_other (ps : List (String × JVal)) (k q : String)
    (v : JVal) (hq : ¬ k = q) :
    objGet (ps.map (fun p => if p.1 = k then (k, v) else p)) q = objGet ps q := by
  induction ps with
  | nil => rfl
  | cons p ps ih =>
    rw [List.map_cons]
    by_cases hp : p.1 = k
    · have hpq : ¬ p.1 = q := fun hc => hq (hp.symm.trans hc)
      rw [if_pos hp, objGet_cons, objGet_cons, if_neg hq, if_neg hpq]
      exact ih
    · rw [if_neg hp, objGet_cons, objGet_cons]
      by_cases hpq : p.1 = q
      · rw [if_pos hpq, if_pos hpq]
      · rw [if_neg hpq, if_neg hpq]
        exact ih

theorem objGet_append_single_other (ps : List (String × JVal)) (k q : String)
    (v : JVal) (hq : ¬ k = q) :
    objGet (ps ++ [(k, v)]) q = objGet ps q := by
  induction ps with
  | nil =>
    rw [List.nil_append, objGet_cons, if_neg hq]
  | cons p ps ih =>
    rw [List.cons_append, objGet_cons, objGet_cons]
    by_cases hpq : p.1 = q
    · rw [if_pos hpq, if_pos hpq]
    · rw [if_neg hpq, if_neg hpq]
      exact ih

theorem objGet_objInsert_other (fields : List (String × JVal)) (k q : String)
    (v : JVal) (hq : ¬ k = q) :
    objGet (objInsert fields k v) q = objGet fields q := by
  unfold objInsert
  split
  · exact objGet_mapRepl_other fields k q v hq
  · exact objGet_append_single_other fields k q v hq

/-- `Object.fromEntries`: the last occurrence of a key determines its
value. -/
theorem jsFromEntries_last_wins (es₁ es₂ : List (String × String))
    (k v : String) (h₂ : ∀ p ∈ es₂, ¬ p.1 = k) :
    objGet (jsFromEntries (es₁ ++ (k, v) :: es₂)) k = some (.jstr v) := by
  have key : ∀ (rest : List (String × String)) (acc : List (String × JVal)),
      (∀ p ∈ rest, ¬ p.1 = k) → objGet acc k = some (.jstr v) →
      objGet (rest.foldl (fun a p => objInsert a p.1 (.jstr p.2)) acc) k =
        some (.jstr v) := by
    intro rest
    induction rest with
    | nil => intro acc _ hacc; exact hacc
    | cons e es ih =>
      intro acc hr hacc
      rw [List.foldl_cons]
      refine ih _ (fun p hp => hr p (List.mem_cons_of_mem e hp)) ?_
      rw [objGet_objInsert_other _ _ _ _ (hr e (List.mem_cons_self e es))]
      exact hacc
  unfold jsFromEntries
  rw [List.foldl_append, List.foldl_cons]
  exact key es₂ _ h₂ (objGet_objInsert_same _ _ _)

/-- C4 counterexample: a multipart form with two values for the same key
renders the *last* value alone — `Object.fromEntries` keeps only the last
occurrence — not the two values joined with `", "`. -/
theorem C4_multipart_counterexample :
    normalizeBody
      { method := "POST", contentType := some "multipart/form-data; boundary=x",
        bodyText := .error (), formDataResult := .ok [("a", "1"), ("a", "2")] } =
      .jobj [("a", .jstr "2")] ∧
    orderedPairsOf (.jobj [("a", .jstr "2")]) = .ok [("a", JVal.jstr "2")] ∧
    renderCell (.jstr "2") = "2" ∧
    ("2" : String) ≠ "1, 2" := by
  exact ⟨rfl, rfl, rfl, by decide⟩

/-- C4 amended: for a multipart submission with duplicate keys the last
occurrence wins and its single value is rendered; the `", "` join applies
only to array values (which multipart parsing never produces — arrays come
from JSON bodies). -/
theorem C4_multipart_last_wins (req : Request) (es₁ es₂ : List (String × String))
    (k v : String)
    (hct3 : jsIncludes (jsToLowerCase (req.contentType.getD "")) "multipart/form-data" = true)
    (hct1 : jsIncludes (jsToLowerCase (req.contentType.getD "")) "application/json" = false)
    (hct2 : jsIncludes (jsToLowerCase (req.contentType.getD "")) "application/x-www-form-urlencoded" = false)
    (hfd : req.formDataResult = .ok (es₁ ++ (k, v) :: es₂))
    (h₂ : ∀ p ∈ es₂, ¬ p.1 = k) :
    normalizeBody req = .jobj (jsFromEntries (es₁ ++ (k, v) :: es₂)) ∧
    objGet (jsFromEntries (es₁ ++ (k, v) :: es₂)) k = some (.jstr v) ∧
    renderValString (.jstr v) = v ∧
    (∀ xs : List JVal, renderValString (.jarr xs) = jsArrayJoin ", " xs) := by
  refine ⟨?_, jsFromEntries_last_wins es₁ es₂ k v h₂, rfl, fun xs => rfl⟩
  unfold normalizeBody
  rw [hfd]
  simp [hct1, hct2, hct3]

theorem C4_multipart_last_wins_witness :
    normalizeBody
      { method := "POST", contentType := some "multipart/form-data; boundary=x",
        bodyText := .error (), formDataResult := .ok [("a", "1"), ("a", "2")] } =
      .jobj (jsFromEntries ([("a", "1")] ++ ("a", "2") :: [])) ∧
    objGet (jsFromEntries ([("a", "1")] ++ ("a", "2") :: [])) "a" =
      some (.jstr "2") ∧
    renderValString (.jstr "2") = "2" := by
  have h := C4_multipart_last_wins
    { method := "POST", contentType := some "multipart/form-data; boundary=x",
      bodyText := .error (), formDataResult := .ok [("a", "1"), ("a", "2")] }
    [("a", "1")] [] "a" "2" rfl rfl rfl rfl (by intro p hp; cases hp)
  exact ⟨h.1, h.2.1, h.2.2.1⟩

/-- The error thrown by the Presentation Builder when the parsed body is
`null` or another non-object primitive: a property read on `null`, or the
`in` operator on a primitive. -/
def nonObjErr : JVal → JsErr
  | .jnull => .typeError "Cannot read properties of null (reading 'customer_name')"
  | v => .typeError
      ("Cannot use 'in' operator to search for 'customer_name' in " ++ jsToString v)

/-- C9: a valid-JSON body whose top-level value is not an object or array
(bare number, string, boolean or `null`) makes the handler throw a
`TypeError`, which the top-level catch converts into HTTP 500 carrying the
error's text — not a 200 with an empty field set. -/
theorem C9_primitive_json_500 (req : Request) (env : Env) (now : String)
    (fr : Except JsErr ProviderResp) (t : String) (v : JVal)
    (hm : req.method = "POST")
    (hct : jsIncludes (jsToLowerCase (req.contentType.getD "")) "application/json" = true)
    (hbody : req.bodyText = .ok t)
    (hparse : jsonParse t = some v)
    (hv : v = .jnull ∨ (∃ n, v = .jnum n) ∨ (∃ s, v = .jstr s) ∨
      (∃ b, v = .jbool b))
    (hk : envTruthy env.BREVO_API_KEY = true)
    (ht : envTruthy env.TO_EMAIL = true)
    (hf : envTruthy env.FROM_EMAIL = true) :
    (∃ m, nonObjErr v = .typeError m) ∧
    (handlerCore req env now fr).2 = .error (nonObjErr v) ∧
    (handler req env now fr).response =
      jsonResponse 500 (errorBody (jsErrString (nonObjErr v))) := by
  have hnb : normalizeBody req = v := by
    unfold normalizeBody
    rw [hbody]
    simp only [hct, if_true, hparse]
  have hbe : buildEmail v now = .error (nonObjErr v) := by
    rcases hv with rfl | ⟨n, rfl⟩ | ⟨s, rfl⟩ | ⟨b, rfl⟩ <;> rfl
  have hcore : (handlerCore req env now fr).2 = .error (nonObjErr v) := by
    unfold handlerCore
    rw [hm]
    simp [hnb, hk, ht, hf, hbe]
  refine ⟨?_, hcore, by simp [handler, hcore]⟩
  rcases hv with rfl | ⟨n, rfl⟩ | ⟨s, rfl⟩ | ⟨b, rfl⟩ <;> exact ⟨_, rfl⟩

theorem C9_primitive_json_500_witness :
    jsonParse "5" = some (.jnum 5) ∧
    (handler (postReq (some "application/json") "5") envFull nowT okFetch).response =
      jsonResponse 500
        (errorBody "TypeError: Cannot use 'in' operator to search for 'customer_name' in 5") ∧
    (handler (postReq (some "application/json") "5") envFull nowT okFetch).response.status = 500 :=
  ⟨rfl,
   (C9_primitive_json_500 (postReq (some "application/json") "5") envFull nowT okFetch
      "5" (.jnum 5) rfl rfl rfl rfl
      (Or.inr (Or.inl ⟨5, rfl⟩)) rfl rfl rfl).2.2,
   by
    rw [(C9_primitive_json_500 (postReq (some "application/json") "5") envFull nowT okFetch
      "5" (.jnum 5) rfl rfl rfl rfl (Or.inr (Or.inl ⟨5, rfl⟩)) rfl rfl rfl).2.2]
    rfl⟩

/-- C10: keys in the skip set — `submittedAt` and `userAgent` among them —
never appear as ordinary labeled rows: every rendered row key differs from
them, and deleting those fields does not change the rendered rows at all. -/
theorem C10_envelope_fields_never_rows (pairs : List (String × JVal)) :
    (∀ k, k ∈ (pairs.filter (fun p => !skipKeys.contains p.1)).map Prod.fst →
      ¬(k = "submittedAt" ∨ k = "userAgent")) ∧
    rowsOf pairs =
      rowsOf (pairs.filter
        (fun p => !(p.1 = "submittedAt" || p.1 = "userAgent"))) := by
  have hfilt : ∀ (ps : List (String × JVal)),
      (ps.filter (fun p => !(p.1 = "submittedAt" || p.1 = "userAgent"))).filter
        (fun p => !skipKeys.contains p.1) =
        ps.filter (fun p => !skipKeys.contains p.1) := by
    intro ps
    rw [List.filter_filter]
    refine List.filter_congr (fun a _ => ?_)
    by_cases e₁ : a.1 = "submittedAt"
    · simp only [e₁]
      decide
    · by_cases e₂ : a.1 = "userAgent"
      · simp only [e₂]
        decide
      · simp [e₁, e₂]
  constructor
  · intro k hk
    rcases List.mem_map.mp hk with ⟨p, hp, hkp⟩
    have hskip := (List.mem_filter.mp hp).2
    intro hc
    rcases hc with hc | hc <;>
      · rw [← hkp] at hc
        simp [skipKeys, hc] at hskip
  · unfold rowsOf
    rw [hfilt]

theorem C10_envelope_fields_never_rows_witness :
    ("q1" ∈ (([("q1", JVal.jstr "5"), ("submittedAt", JVal.jstr "T")].filter
        (fun p => !skipKeys.contains p.1)).map Prod.fst)) ∧
    ¬("q1" = "submittedAt" ∨ "q1" = "userAgent") ∧
    rowsOf [("q1", JVal.jstr "5"), ("submittedAt", JVal.jstr "T")] =
      rowsOf ([("q1", JVal.jstr "5"), ("submittedAt", JVal.jstr "T")].filter
        (fun p => !(p.1 = "submittedAt" || p.1 = "userAgent"))) := by
  refine ⟨by decide, ?_, (C10_envelope_fields_never_rows _).2⟩
  exact (C10_envelope_fields_never_rows
    [("q1", JVal.jstr "5"), ("submittedAt", JVal.jstr "T")]).1 "q1" (by decide)

/-! C3: field ordering. -/

/-- Keep the first occurrence of each key, skipping keys already seen. -/
def dedupSeen (seen : List String) : List String → List String
  | [] => []
  | k :: ks =>
    if seen.contains k then dedupSeen seen ks
    else k :: dedupSeen (seen ++ [k]) ks

/-- Modelled from the spec (the field-ordering contract of the
Presentation Builder): LabelMap keys in fixed order restricted to keys
present in the form, then the remaining form keys (not in LabelMap) in
insertion order with duplicates skipped, and every SkipSet key dropped
from the combined sequence. -/
def specOrderKeys (fs : List (String × JVal)) : List String :=
  ((labelMapKeys.filter (fun k => objHasKey fs k)) ++
    dedupSeen [] ((fs.map Prod.fst).filter (fun k => !labelMapKeys.contains k))).filter
    (fun k => !skipKeys.contains k)

/-- The key order the code actually renders (keys of the skip-filtered
ordered pairs). -/
def rowKeysPure (fs : List (String × JVal)) : List String :=
  ((orderedPairsPure fs).filter (fun p => !skipKeys.contains p.1)).map Prod.fst

/-- The pairs the append loop adds beyond a given set of already-present
keys. -/
def extraPairs (seen : List String) : List (String × JVal) → List (String × JVal)
  | [] => []
  | (k, v) :: rest =>
    if skipKeys.contains k then extraPairs seen rest
    else if !inLabelMapObj k && !seen.contains k then
      (k, v) :: extraPairs (seen ++ [k]) rest
    else extraPairs seen rest

theorem contains_map_fst (acc : List (String × JVal)) (k : String) :
    (acc.map Prod.fst).contains k = acc.any (fun p => p.1 = k) := by
  induction acc with
  | nil => rfl
  | cons p ps ih =>
    simp only [List.map_cons, List.contains_cons, List.any_cons, ih]
    congr 1
    by_cases h : p.1 = k
    · simp [h]
    · have h₂ : ¬ k = p.1 := fun hc => h hc.symm
      simp [h, h₂]

theorem appendLoop_eq_extraPairs (es : List (String × JVal)) :
    ∀ acc, appendLoop acc es = acc ++ extraPairs (acc.map Prod.fst) es := by
  induction es with
  | nil =>
    intro acc
    simp [appendLoop, extraPairs]
  | cons e rest ih =>
    intro acc
    obtain ⟨k, v⟩ := e
    by_cases hs : skipKeys.contains k = true
    · simp only [appendLoop, extraPairs, hs, if_true]
      exact ih acc
    · simp only [appendLoop, extraPairs, hs, if_false, contains_map_fst]
      by_cases hc : (!inLabelMapObj k && !(acc.any (fun p => p.1 = k))) = true
      · simp only [hc, if_true]
        rw [ih (acc ++ [(k, v)])]
        simp [List.append_assoc]
      · simp only [hc, if_false]
        exact ih acc

theorem mem_of_contains {l : List String} {k : String}
    (h : l.contains k = true) : k ∈ l := by
  simpa using h

/-- Each skip key is not a label key (the two fixed sets are disjoint). -/
theorem skip_not_label {k : String} (h : k ∈ skipKeys) :
    labelMapKeys.contains k = false := by
  simp only [skipKeys, List.mem_cons, List.not_mem_nil, or_false] at h
  rcases h with rfl | rfl | rfl | rfl | rfl | rfl <;> decide

/-- The key sequence the append loop produces equals the spec's
deduplicated remainder with skip keys dropped, provided no form key
shadows an `Object.prototype` name and the two seen-sets agree on the
relevant keys. -/
theorem extraPairs_keys (fs : List (String × JVal)) :
    ∀ (seen seenS : List String),
      (∀ p ∈ fs, objectProtoProps.contains p.1 = false) →
      (∀ k, labelMapKeys.contains k = false → skipKeys.contains k = false →
        (k ∈ seen ↔ k ∈ seenS)) →
      (extraPairs seen fs).map Prod.fst =
        (dedupSeen seenS ((fs.map Prod.fst).filter
          (fun k => !labelMapKeys.contains k))).filter
          (fun k => !skipKeys.contains k) := by
  induction fs with
  | nil => intro seen seenS _ _; rfl
  | cons e rest ih =>
    intro seen seenS hproto hs
    obtain ⟨k, v⟩ := e
    have hprest : ∀ p ∈ rest, objectProtoProps.contains p.1 = false :=
      fun p hp => hproto p (List.mem_cons_of_mem _ hp)
    have hpk : objectProtoProps.contains k = false :=
      hproto (k, v) (List.mem_cons_self _ _)
    by_cases hsk : skipKeys.contains k = true
    · -- skip key: dropped by the loop now, and by the final filter in the spec
      have hlk : labelMapKeys.contains k = false :=
        skip_not_label (mem_of_contains hsk)
      rw [show extraPairs seen ((k, v) :: rest) = extraPairs seen rest from by
        rw [extraPairs, if_pos hsk]]
      rw [List.map_cons, List.filter_cons, hlk]
      simp only [Bool.not_false, if_true]
      by_cases hm : seenS.contains k = true
      · rw [show dedupSeen seenS (k :: ((rest.map Prod.fst).filter
            (fun q => !labelMapKeys.contains q))) =
            dedupSeen seenS ((rest.map Prod.fst).filter
            (fun q => !labelMapKeys.contains q)) from by
          rw [dedupSeen, if_pos hm]]
        exact ih seen seenS hprest hs
      · rw [show dedupSeen seenS (k :: ((rest.map Prod.fst).filter
            (fun q => !labelMapKeys.contains q))) =
            k :: dedupSeen (seenS ++ [k]) ((rest.map Prod.fst).filter
            (fun q => !labelMapKeys.contains q)) from by
          rw [dedupSeen, if_neg hm]]
        rw [List.filter_cons, hsk]
        simp only [Bool.not_true, Bool.false_eq_true, if_false]
        refine ih seen (seenS ++ [k]) hprest ?_
        intro q hql hqs
        have hqk : ¬ q = k := by
          intro hc
          rw [hc] at hqs
          rw [hqs] at hsk
          exact Bool.false_ne_true hsk
        rw [hs q hql hqs]
        simp [hqk]
    · by_cases hlk : labelMapKeys.contains k = true
      · -- label key: the loop's `!(k in labelMap)` is false; the spec's
        -- remainder filter drops it too
        have hin : inLabelMapObj k = true := by
          rw [inLabelMapObj, hlk, Bool.true_or]
        rw [show extraPairs seen ((k, v) :: rest) = extraPairs seen rest from by
          rw [extraPairs, if_neg hsk, if_neg (by simp [hin])]]
        rw [List.map_cons, List.filter_cons, hlk]
        simp only [Bool.not_true, Bool.false_eq_true, if_false]
        exact ih seen seenS hprest hs
      · -- ordinary new key
        have hlk' : labelMapKeys.contains k = false := by
          simpa using hlk
        have hsk' : skipKeys.contains k = false := by
          simpa using hsk
        have hin : inLabelMapObj k = false := by
          rw [inLabelMapObj, hlk', hpk]
          rfl
        have hseen : (seen.contains k) = (seenS.contains k) := by
          by_cases hksn : k ∈ seen
          · have h₂ : k ∈ seenS := (hs k hlk' hsk').mp hksn
            simp [hksn, h₂]
          · have h₂ : ¬ k ∈ seenS := fun hc => hksn ((hs k hlk' hsk').mpr hc)
            simp [hksn, h₂]
        rw [List.map_cons, List.filter_cons, hlk']
        simp only [Bool.not_false, if_true]
        by_cases hm : seenS.contains k = true
        · have hm' : seen.contains k = true := by rw [hseen]; exact hm
          rw [show extraPairs seen ((k, v) :: rest) = extraPairs seen rest from by
            rw [extraPairs, if_neg hsk, if_neg (by rw [hin, hm']; decide)]]
          rw [show dedupSeen seenS (k :: ((rest.map Prod.fst).filter
              (fun q => !labelMapKeys.contains q))) =
              dedupSeen seenS ((rest.map Prod.fst).filter
              (fun q => !labelMapKeys.contains q)) from by
            rw [dedupSeen, if_pos hm]]
          exact ih seen seenS hprest hs
        · have hm' : seen.contains k = false := by
            rw [hseen]
            simpa using hm
          rw [show extraPairs seen ((k, v) :: rest) =
              (k, v) :: extraPairs (seen ++ [k]) rest from by
            rw [extraPairs, if_neg hsk, if_pos (by rw [hin, hm']; decide)]]
          rw [show dedupSeen seenS (k :: ((rest.map Prod.fst).filter
              (fun q => !labelMapKeys.contains q))) =
              k :: dedupSeen (seenS ++ [k]) ((rest.map Prod.fst).filter
              (fun q => !labelMapKeys.contains q)) from by
            rw [dedupSeen, if_neg hm]]
          rw [List.map_cons, List.filter_cons, hsk']
          simp only [Bool.not_false, if_true]
          refine congrArg (k :: ·) ?_
          refine ih (seen ++ [k]) (seenS ++ [k]) hprest ?_
          intro q hql hqs
          by_cases hqk : q = k
          · subst hqk
            simp
          · have h₃ := hs q hql hqs
            simp [hqk, h₃]

theorem map_fst_filter_skip (l : List (String × JVal)) :
    (l.filter (fun p => !skipKeys.contains p.1)).map Prod.fst =
      (l.map Prod.fst).filter (fun k => !skipKeys.contains k) := by
  induction l with
  | nil => rfl
  | cons p ps ih =>
    rw [List.filter_cons, List.map_cons, List.filter_cons]
    by_cases hp : skipKeys.contains p.1 = true
    · rw [hp]
      simp only [Bool.not_true, Bool.false_eq_true, if_false]
      exact ih
    · have hp' : skipKeys.contains p.1 = false := by simpa using hp
      rw [hp']
      simp only [Bool.not_false, if_true, List.map_cons]
      rw [ih]

theorem filter_skip_idem (l : List String) :
    (l.filter (fun k => !skipKeys.contains k)).filter
        (fun k => !skipKeys.contains k) =
      l.filter (fun k => !skipKeys.contains k) := by
  rw [List.filter_filter]
  exact List.filter_congr (fun a _ => by rw [Bool.and_self])

/-- No `labelMap` key is an `Object.prototype` property name. -/
theorem label_not_proto : ∀ k ∈ labelMapKeys, objectProtoProps.contains k = false := by
  intro k hk
  simp only [labelMapKeys, labelMapPairs, List.map_cons, List.map_nil,
    List.mem_cons, List.not_mem_nil, or_false] at hk
  rcases hk with rfl | rfl | rfl | rfl | rfl | rfl | rfl | rfl <;> decide

/-- C3 corrected: assuming no submitted key shadows an `Object.prototype`
name, the rendered key order is exactly the spec's: LabelMap keys in fixed
order restricted to present keys, then remaining keys in insertion order
with duplicates skipped, with SkipSet keys dropped.  (Keys like `toString`
violate this: see the counterexample.) -/
theorem C3_row_order_eq_spec (fs : List (String × JVal))
    (h : ∀ p ∈ fs, objectProtoProps.contains p.1 = false) :
    orderedPairsOf (.jobj fs) = .ok (orderedPairsPure fs) ∧
    rowKeysPure fs = specOrderKeys fs := by
  refine ⟨orderedPairsOf_obj fs, ?_⟩
  have hL : (labelRowsPure fs).map Prod.fst =
      labelMapKeys.filter
        (fun k => objHasKey fs k || objectProtoProps.contains k) := by
    unfold labelRowsPure
    rw [List.map_map]
    have hcomp : (Prod.fst ∘ fun k => (k, (objGet fs k).getD JVal.jnull)) =
        fun k : String => k := rfl
    rw [hcomp, List.map_id']
  have hLf : labelMapKeys.filter
      (fun k => objHasKey fs k || objectProtoProps.contains k) =
      labelMapKeys.filter (fun k => objHasKey fs k) := by
    refine List.filter_congr ?_
    intro k hk
    rw [label_not_proto k hk, Bool.or_false]
  have hseen0 : ∀ k, labelMapKeys.contains k = false →
      skipKeys.contains k = false →
      (k ∈ labelMapKeys.filter (fun q => objHasKey fs q) ↔
        k ∈ ([] : List String)) := by
    intro k hkl _
    constructor
    · intro hk
      have hm : k ∈ labelMapKeys := List.mem_of_mem_filter hk
      have hc : labelMapKeys.contains k = true := by simpa using hm
      rw [hc] at hkl
      exact Bool.noConfusion hkl
    · intro hk
      cases hk
  show ((orderedPairsPure fs).filter (fun p => !skipKeys.contains p.1)).map
      Prod.fst = _
  unfold orderedPairsPure
  rw [appendLoop_eq_extraPairs fs (labelRowsPure fs), List.filter_append,
    List.map_append, map_fst_filter_skip, map_fst_filter_skip, hL, hLf,
    extraPairs_keys fs (labelMapKeys.filter (fun k => objHasKey fs k)) [] h hseen0,
    filter_skip_idem]
  unfold specOrderKeys
  rw [List.filter_append]

/-- C3 counterexample: a field named `toString` — not a LabelMap key — is
silently dropped from the rendered rows, because the code tests membership
with the `in` operator, which also sees the inherited
`Object.prototype.toString`; the spec's ordering would render it. -/
theorem C3_proto_key_counterexample :
    rowKeysPure [("toString", JVal.jstr "x")] = [] ∧
    specOrderKeys [("toString", JVal.jstr "x")] = ["toString"] ∧
    orderedPairsOf (.jobj [("toString", JVal.jstr "x")]) = .ok [] ∧
    (([] : List String) ≠ ["toString"]) :=
  ⟨rfl, rfl, rfl, by decide⟩

theorem C3_row_order_eq_spec_witness :
    (∀ p ∈ [("q1", JVal.jstr "5"), ("custom_note", JVal.jstr "hi"),
        ("customer_name", JVal.jstr "A"), ("bot-field", JVal.jstr "x")],
      objectProtoProps.contains p.1 = false) ∧
    rowKeysPure [("q1", JVal.jstr "5"), ("custom_note", JVal.jstr "hi"),
        ("customer_name", JVal.jstr "A"), ("bot-field", JVal.jstr "x")] =
      specOrderKeys [("q1", JVal.jstr "5"), ("custom_note", JVal.jstr "hi"),
        ("customer_name", JVal.jstr "A"), ("bot-field", JVal.jstr "x")] ∧
    rowKeysPure [("q1", JVal.jstr "5"), ("custom_note", JVal.jstr "hi"),
        ("customer_name", JVal.jstr "A"), ("bot-field", JVal.jstr "x")] =
      ["customer_name", "q1", "custom_note"] := by
  refine ⟨?_, ?_, rfl⟩
  · intro p hp
    simp only [List.mem_cons, List.not_mem_nil, or_false] at hp
    rcases hp with rfl | rfl | rfl | rfl <;> decide
  · exact (C3_row_order_eq_spec _ (by
      intro p hp
      simp only [List.mem_cons, List.not_mem_nil, or_false] at hp
      rcases hp with rfl | rfl | rfl | rfl <;> decide)).2

/-- C8 counterexample: a form whose `submittedAt` field is present but
empty renders the *current time* in the timestamp envelope row, not the
field's (empty) value — `data.submittedAt || new Date().toISOString()`
tests truthiness, not presence. -/
theorem C8_present_empty_counterexample :
    objHasKey [("submittedAt", JVal.jstr "")] "submittedAt" = true ∧
    submittedAtStr (.jobj [("submittedAt", .jstr "")]) "2026-02-03T04:05:06.000Z" =
      .ok "2026-02-03T04:05:06.000Z" ∧
    jsToString (.jstr "") = "" ∧
    ("2026-02-03T04:05:06.000Z" : String) ≠ "" :=
  ⟨rfl, rfl, rfl, by decide⟩

/-- C8 amended: the rendered table always ends with exactly the two
envelope rows (timestamp then user-agent) after the field rows; the
timestamp value is the form's `submittedAt` field when present *and
truthy* (in particular non-empty), else the current time; the user-agent
value is the `userAgent` field when present and truthy, else empty. -/
theorem C8_envelope_rows (fs : List (String × JVal)) (now : String) :
    (∀ subject rowsStr subAt ua dump,
      htmlDocOf subject rowsStr subAt ua dump =
        docHead subject ++ (if rowsStr = "" then zeroRowsPlaceholder else rowsStr) ++
          envelopeRowsStr subAt ua ++ docTail dump) ∧
    (∀ w, objGet fs "submittedAt" = some w → jsTruthy w = true →
      submittedAtStr (.jobj fs) now = .ok (jsToString w)) ∧
    (∀ w, objGet fs "submittedAt" = some w → jsTruthy w = false →
      submittedAtStr (.jobj fs) now = .ok now) ∧
    (objGet fs "submittedAt" = none → submittedAtStr (.jobj fs) now = .ok now) ∧
    (∀ w, objGet fs "userAgent" = some w → jsTruthy w = true →
      userAgentStr (.jobj fs) = .ok (jsToString w)) ∧
    (∀ w, objGet fs "userAgent" = some w → jsTruthy w = false →
      userAgentStr (.jobj fs) = .ok "") ∧
    (objGet fs "userAgent" = none → userAgentStr (.jobj fs) = .ok "") := by
  refine ⟨fun _ _ _ _ _ => rfl, ?_, ?_, ?_, ?_, ?_, ?_⟩
  · intro w hw ht
    simp [submittedAtStr, jsGetProp, exceptBindOk, hw, ht]
  · intro w hw ht
    simp [submittedAtStr, jsGetProp, exceptBindOk, hw, ht]
  · intro hw
    simp [submittedAtStr, jsGetProp, exceptBindOk, hw]
  · intro w hw ht
    simp [userAgentStr, jsGetProp, exceptBindOk, hw, ht]
  · intro w hw ht
    simp [userAgentStr, jsGetProp, exceptBindOk, hw, ht]
  · intro hw
    simp [userAgentStr, jsGetProp, exceptBindOk, hw]

theorem C8_envelope_rows_witness :
    objGet [("submittedAt", JVal.jstr "2020-05-06T07:08:09.000Z"),
        ("userAgent", JVal.jstr "TestUA/1.0")] "submittedAt" =
      some (.jstr "2020-05-06T07:08:09.000Z") ∧
    jsTruthy (.jstr "2020-05-06T07:08:09.000Z") = true ∧
    submittedAtStr
      (.jobj [("submittedAt", JVal.jstr "2020-05-06T07:08:09.000Z"),
        ("userAgent", JVal.jstr "TestUA/1.0")]) nowT =
      .ok "2020-05-06T07:08:09.000Z" ∧
    userAgentStr
      (.jobj [("submittedAt", JVal.jstr "2020-05-06T07:08:09.000Z"),
        ("userAgent", JVal.jstr "TestUA/1.0")]) = .ok "TestUA/1.0" ∧
    htmlDocOf "s" "" "t" "u" "\x7b\x7d" =
      docHead "s" ++ zeroRowsPlaceholder ++ envelopeRowsStr "t" "u" ++ docTail "\x7b\x7d" := by
  have h := C8_envelope_rows
    [("submittedAt", JVal.jstr "2020-05-06T07:08:09.000Z"),
     ("userAgent", JVal.jstr "TestUA/1.0")] nowT
  refine ⟨rfl, rfl, h.2.1 _ rfl rfl, h.2.2.2.2.1 _ rfl rfl, ?_⟩
  rw [h.1 "s" "" "t" "u" "\x7b\x7d"]
  simp

/-- C2: `escapeHtml` replaces `&` first, then `<`, `>`, `"` — equivalently
a character-wise escape, so entities are never re-escaped; its output has
no raw `<`, `>` or `"` and every `&` starts an entity; every rendered cell
is the escaped value with newlines converted to `<br/>` *after* escaping,
and its only angle brackets belong to `<br/>`; every row escapes the label
too; and in the whole document the heading, the envelope values and the
JSON dump are embedded through `escapeHtml`. -/
theorem C2_escaping_everywhere :
    (∀ s : String, escapeHtml s = ⟨charEsc s.data⟩) ∧
    (∀ s : String, noRawAngles (escapeHtml s).data = true ∧
      ampEntitiesOk (escapeHtml s).data = true) ∧
    (∀ v : JVal, renderCell v =
      (if (⟨brify (escapeHtml (renderValString v)).data⟩ : String) = "" then
        "(未填)"
       else ⟨brify (escapeHtml (renderValString v)).data⟩)) ∧
    (∀ v : JVal, cellSafe (renderCell v).data = true) ∧
    (∀ (k : String) (v : JVal), renderRow k v =
      "<tr><th align=\"left\" style=\"white-space:nowrap\">" ++
        escapeHtml (labelFor k) ++ "</th><td>" ++ renderCell v ++
        "</td></tr>") ∧
    (∀ subject rowsStr subAt ua dump : String,
      htmlDocOf subject rowsStr subAt ua dump =
        "\n      <div style=\"font-family:Arial,Helvetica,sans-serif;line-height:1.6\">\n        <h2>"
        ++ escapeHtml subject
        ++ "</h2>\n        <table border=\"1\" cellpadding=\"8\" cellspacing=\"0\" style=\"border-collapse:collapse;width:100%;max-width:760px\">\n          "
        ++ (if rowsStr = "" then "<tr><td>(沒有欄位資料)</td></tr>" else rowsStr)
        ++ "\n          <tr><th align=\"left\">送出時間</th><td>"
        ++ escapeHtml subAt
        ++ "</td></tr>\n          <tr><th align=\"left\">User-Agent</th><td>"
        ++ escapeHtml ua
        ++ "</td></tr>"
        ++ "\n        </table>\n        <pre style=\"margin-top:12px;background:#f6f8fa;padding:12px;border-radius:6px;overflow:auto\">"
        ++ escapeHtml dump
        ++ "</pre>\n      </div>\n    ") := by
  refine ⟨?_, ?_, ?_, ?_, fun k v => rfl, ?_⟩
  · intro s
    exact congrArg String.mk (escapeHtmlL_eq_charEsc s.data)
  · intro s
    exact ⟨noRawAngles_escapeHtmlL s.data, ampEntitiesOk_escapeHtmlL s.data⟩
  · intro v
    rfl
  · intro v
    unfold renderCell
    by_cases he : (⟨brify (escapeHtmlL (renderValString v).data)⟩ : String) = ""
    · rw [if_pos he]
      rw [show ("(未填)" : String).data = brify ("(未填)" : String).data from rfl]
      exact cellSafe_brify _ (by decide)
    · rw [if_neg he]
      exact cellSafe_brify _ (noRawAngles_escapeHtmlL _)
  · intro subject rowsStr subAt ua dump
    simp only [htmlDocOf, docHead, envelopeRowsStr, docTail, zeroRowsPlaceholder,
      String.append_assoc]

end Submit
